import Mathlib

/-!
Shallow embedding of `mattport/structures/rays.py`: ray bundles, samples along
rays, and the volume-rendering weight computation.

Tensors are modelled as (nested) lists of exact rationals: a tensor of shape
`[num_rays, 3]` becomes `List Vec3`, one of shape `[num_rays, num_samples]`
becomes `List (List ℚ)`, and so on, with the leading axis outermost.  The
transcendental floating-point kernels `torch.exp` and `torch.norm` are
abstracted as function parameters (`rexp`, `nrm`): the properties under study
are algebraic identities about how the code composes these kernels, and they
hold for an arbitrary function in their place, which keeps every definition
computable.  `torch.cumsum`, concatenation, slicing, broadcasting and boolean
indexing are translated into their exact list counterparts.
-/

/-- Points and vectors in space, modelling tensors with trailing dimension 3. -/
abbrev Vec3 := ℚ × ℚ × ℚ

/-- The zero vector, used as an out-of-range default for `List.getD`. -/
def vzero : Vec3 := (0, 0, 0)

/-- Componentwise addition of 3-vectors. -/
def vadd (a b : Vec3) : Vec3 := (a.1 + b.1, a.2.1 + b.2.1, a.2.2 + b.2.2)

/-- Scalar multiplication of a 3-vector. -/
def vsmul (t : ℚ) (v : Vec3) : Vec3 := (t * v.1, t * v.2.1, t * v.2.2)

/-- Model of `PointSamples` from `rays.py`: a flat set of samples in space. -/
structure PointSamples where
  positions : List (List Vec3)
  directions : List (List Vec3)
  camera_indices : Option (List (List ℤ)) := none
  valid_mask : Option (List (List Bool)) := none

/-- Model of `RaySamples` from `rays.py`: samples along rays.  The fields that
`RayBundle.get_ray_samples` always populates are total; `camera_indices` and
`valid_mask` keep the optional (None-able) status they have in the source. -/
structure RaySamples where
  positions : List (List Vec3)
  directions : List (List Vec3)
  camera_indices : Option (List (List ℤ)) := none
  valid_mask : Option (List (List Bool)) := none
  ts : List (List ℚ)
  deltas : List (List ℚ)

/-- Model of `RaySamples.to_point_samples`: project positions, directions and the
valid mask into a `PointSamples`, discarding `camera_indices`, `ts`, `deltas`. -/
def RaySamples.to_point_samples (rs : RaySamples) : PointSamples :=
  { positions := rs.positions
    directions := rs.directions
    camera_indices := none
    valid_mask := rs.valid_mask }

/-- Inclusive prefix sums, modelling `torch.cumsum` along the last axis. -/
def cumsum : List ℚ → List ℚ
  | [] => []
  | x :: xs => x :: (cumsum xs).map (fun y => x + y)

/-- One ray of `RaySamples.get_weights`.  Mirrors the source line by line:
`delta_density = deltas * densities[..., 0]` (the model's `densities` list is
already the channel-stripped `densities[..., 0]`),
`alphas = 1 - exp(-delta_density)`,
`transmittance = exp(-cat([zeros, cumsum(delta_density[..., :-1])]))`,
`weights = alphas * transmittance`.  `torch.exp` is the parameter `rexp`. -/
def getWeightsRay (rexp : ℚ → ℚ) (deltas densities : List ℚ) : List ℚ :=
  let delta_density := List.zipWith (fun a b => a * b) deltas densities
  let alphas := delta_density.map (fun x => 1 - rexp (-x))
  let transmittance := (0 :: cumsum delta_density.dropLast).map (fun s => rexp (-s))
  List.zipWith (fun a b => a * b) alphas transmittance

/-- Model of `RaySamples.get_weights`, applied ray by ray (the torch version computes
all rays at once on a `[num_rays, num_samples]` tensor). -/
def RaySamples.get_weights (rexp : ℚ → ℚ) (rs : RaySamples)
    (densities : List (List ℚ)) : List (List ℚ) :=
  List.zipWith (getWeightsRay rexp) rs.deltas densities

/-- Model of `RaySamples.set_valid_mask`: replace the validity field in place. -/
def RaySamples.set_valid_mask (rs : RaySamples) (m : List (List Bool)) : RaySamples :=
  { rs with valid_mask := some m }

lemma cumsum_length (l : List ℚ) : (cumsum l).length = l.length := by
  induction l with
  | nil => rfl
  | cons x xs ih => simp [cumsum, ih]

lemma cumsum_getD (l : List ℚ) (i : ℕ) (h : i < l.length) :
    (cumsum l).getD i 0 = (l.take (i + 1)).sum := by
  induction l generalizing i with
  | nil => simp at h
  | cons x xs ih =>
    cases i with
    | zero => simp [cumsum]
    | succ j =>
      have hj : j < xs.length := by simpa using h
      have hj' : j < (cumsum xs).length := by simpa [cumsum_length] using hj
      simp only [cumsum, List.getD_cons_succ, List.take_succ_cons, List.sum_cons]
      rw [List.getD_eq_getElem _ _ (by simpa [cumsum_length] using hj'),
        List.getElem_map]
      rw [← List.getD_eq_getElem (cumsum xs) 0 hj', ih j hj]

lemma sum_take_getD (l : List ℚ) (i : ℕ) (h : i ≤ l.length) :
    (l.take i).sum = ∑ j ∈ Finset.range i, l.getD j 0 := by
  induction i with
  | zero => simp
  | succ k ih =>
    have hk : k < l.length := h
    rw [Finset.sum_range_succ, ← ih (le_of_lt hk), List.take_succ,
      List.getElem?_eq_getElem hk, List.getD_eq_getElem l 0 hk]
    simp only [Option.toList_some, List.sum_append, List.sum_cons, List.sum_nil,
      add_zero]

lemma getD_map_of_lt {α β : Type} (f : α → β) (l : List α) (i : ℕ) (da : α) (db : β)
    (h : i < l.length) : (l.map f).getD i db = f (l.getD i da) := by
  rw [List.getD_eq_getElem _ _ (by simpa using h), List.getElem_map,
    ← List.getD_eq_getElem l da h]

lemma getD_zipWith_of_lt {α β γ : Type} (f : α → β → γ) (a : List α) (b : List β)
    (i : ℕ) (da : α) (db : β) (dc : γ) (ha : i < a.length) (hb : i < b.length) :
    (List.zipWith f a b).getD i dc = f (a.getD i da) (b.getD i db) := by
  have hl : i < (List.zipWith f a b).length := by
    simpa [List.length_zipWith] using ⟨ha, hb⟩
  rw [List.getD_eq_getElem _ _ hl, List.getElem_zipWith,
    ← List.getD_eq_getElem a da ha, ← List.getD_eq_getElem b db hb]

/-- The per-ray weight formula: entry `i` of `getWeightsRay` is
`(1 - exp(-δᵢρᵢ)) * exp(-Σ_{j<i} δⱼρⱼ)`. -/
lemma getWeightsRay_getD (rexp : ℚ → ℚ) (d ρ : List ℚ)
    (hlen : ρ.length = d.length) (i : ℕ) (hi : i < d.length) :
    (getWeightsRay rexp d ρ).getD i 0 =
      (1 - rexp (-(d.getD i 0 * ρ.getD i 0))) *
        rexp (-(∑ j ∈ Finset.range i, d.getD j 0 * ρ.getD j 0)) := by
  have hρ : i < ρ.length := hlen ▸ hi
  have hdd_len : (List.zipWith (fun a b => a * b) d ρ).length = d.length := by
    simp [List.length_zipWith, hlen]
  have hdd : ∀ j, j < d.length →
      (List.zipWith (fun a b => a * b) d ρ).getD j 0 = d.getD j 0 * ρ.getD j 0 := by
    intro j hj
    exact getD_zipWith_of_lt _ d ρ j 0 0 0 hj (hlen ▸ hj)
  set dd := List.zipWith (fun a b => a * b) d ρ with hdd_def
  have htr_len : (0 :: cumsum dd.dropLast).length = dd.length := by
    have hpos : 0 < dd.length := by omega
    simp [cumsum_length, List.length_dropLast]
    omega
  have htr : ((0 :: cumsum dd.dropLast).map (fun s => rexp (-s))).getD i 0 =
      rexp (-(∑ j ∈ Finset.range i, d.getD j 0 * ρ.getD j 0)) := by
    rw [getD_map_of_lt _ _ i 0 0 (by omega)]
    congr 2
    cases i with
    | zero => simp
    | succ k =>
      have hk : k < dd.dropLast.length := by
        simp [List.length_dropLast]
        omega
      have hk' : k < (cumsum dd.dropLast).length := by
        simpa [cumsum_length] using hk
      rw [List.getD_cons_succ, cumsum_getD _ _ hk]
      have htake : dd.dropLast.take (k + 1) = dd.take (k + 1) := by
        rw [List.dropLast_eq_take, List.take_take]
        congr 1
        omega
      rw [htake, sum_take_getD _ _ (by omega)]
      refine Finset.sum_congr rfl (fun j hj => ?_)
      have hjlt : j < k + 1 := Finset.mem_range.mp hj
      exact hdd j (by omega)
  have halpha : (dd.map (fun x => 1 - rexp (-x))).getD i 0 =
      1 - rexp (-(d.getD i 0 * ρ.getD i 0)) := by
    rw [getD_map_of_lt _ _ i 0 0 (by omega), hdd i hi]
  rw [getWeightsRay]
  simp only [← hdd_def]
  rw [getD_zipWith_of_lt _ _ _ i 0 0 0 (by simp only [List.length_map, hdd_len]; omega)
    (by simp only [List.length_map, htr_len, hdd_len]; omega), halpha, htr]

/-- C1: for every `RaySamples` whose per-sample densities match the leading
shape of its `deltas`, `get_weights` returns, at every ray `r` and sample `i`,
`weight = (1 - exp(-deltas[i]*densities[i])) * exp(-(sum over j < i of
deltas[j]*densities[j]))`; moreover, since the transmittance factor of the
first sample is `exp(-0) = 1` (for any exponential with `exp 0 = 1`), the
weight of sample `0` is exactly `1 - exp(-delta*density)`, which for a single
sample per ray is the only weight. -/
theorem get_weights_formula (rexp : ℚ → ℚ) (rs : RaySamples)
    (densities : List (List ℚ)) (r i : ℕ)
    (hr : r < rs.deltas.length)
    (hlen : densities.length = rs.deltas.length)
    (hray : (densities.getD r []).length = (rs.deltas.getD r []).length)
    (hi : i < (rs.deltas.getD r []).length)
    (hexp : rexp 0 = 1) :
    ((rs.get_weights rexp densities).getD r []).getD i 0 =
      (1 - rexp (-((rs.deltas.getD r []).getD i 0 * (densities.getD r []).getD i 0))) *
        rexp (-(∑ j ∈ Finset.range i,
          (rs.deltas.getD r []).getD j 0 * (densities.getD r []).getD j 0)) ∧
    ((rs.get_weights rexp densities).getD r []).getD 0 0 =
      1 - rexp (-((rs.deltas.getD r []).getD 0 0 * (densities.getD r []).getD 0 0)) := by
  have hbundle : (rs.get_weights rexp densities).getD r [] =
      getWeightsRay rexp (rs.deltas.getD r []) (densities.getD r []) := by
    rw [RaySamples.get_weights]
    exact getD_zipWith_of_lt _ _ _ r [] [] [] hr (hlen ▸ hr)
  constructor
  · rw [hbundle]
    exact getWeightsRay_getD rexp _ _ hray i hi
  · rw [hbundle, getWeightsRay_getD rexp _ _ hray 0 (by omega)]
    simp [hexp]

/-- Concrete exponential stand-in for the C1 witness (it satisfies `exp 0 = 1`). -/
def rexpW : ℚ → ℚ := fun x => 1 + x

/-- Concrete `RaySamples` for the C1 witness: one ray, one sample, delta 2. -/
def rsW : RaySamples :=
  { positions := [[vzero]], directions := [[vzero]], ts := [[0]], deltas := [[2]] }

/-- Concrete densities for the C1 witness: one ray, one sample, density 3. -/
def densW : List (List ℚ) := [[3]]

/-- Witness for C1 at one ray with a single sample. -/
theorem get_weights_formula_witness :
    ((rsW.get_weights rexpW densW).getD 0 []).getD 0 0 =
      (1 - rexpW (-((rsW.deltas.getD 0 []).getD 0 0 * (densW.getD 0 []).getD 0 0))) *
        rexpW (-(∑ j ∈ Finset.range 0,
          (rsW.deltas.getD 0 []).getD j 0 * (densW.getD 0 []).getD j 0)) ∧
    ((rsW.get_weights rexpW densW).getD 0 []).getD 0 0 =
      1 - rexpW (-((rsW.deltas.getD 0 []).getD 0 0 * (densW.getD 0 []).getD 0 0)) :=
  get_weights_formula rexpW rsW densW 0 0 (by decide) (by decide) (by decide)
    (by decide) (by norm_num [rexpW])

/-- Model of `RayBundle` from `rays.py`: `origins` and `directions` are required
parallel arrays of length `num_rays`; `camera_indices`, `nears`, `fars` and
`valid_mask` are optional (None-able) parallel arrays. -/
structure RayBundle where
  origins : List Vec3
  directions : List Vec3
  camera_indices : Option (List ℤ) := none
  nears : Option (List ℚ) := none
  fars : Option (List ℚ) := none
  valid_mask : Option (List Bool) := none

/-- Model of `RayBundle.__len__`: the number of rays, `origins.shape[0]`. -/
def RayBundle.len (b : RayBundle) : ℕ := b.origins.length

/-- Model of `RayBundle.sample`.  The draw `random.sample(range(len(self)), k=num_rays)`
is modelled by the explicit argument `indices`; `random.sample` returns
`num_rays` distinct members of `range(len(self))`, and theorems about a
successful draw carry exactly those facts as hypotheses.  The source first
runs `assert num_rays <= len(self)` (failure raises `AssertionError`), then
builds the new bundle with `camera_indices=self.camera_indices[indices]`:
when `camera_indices` is `None`, that subscript raises a `TypeError`, which
the model signals as an error value. -/
def RayBundle.sample (b : RayBundle) (num_rays : ℕ) (indices : List ℕ) :
    Except String RayBundle :=
  if num_rays ≤ b.len then
    match b.camera_indices with
    | some ci =>
        .ok { origins := indices.map (fun i => b.origins.getD i vzero)
              directions := indices.map (fun i => b.directions.getD i vzero)
              camera_indices := some (indices.map (fun i => ci.getD i 0)) }
    | none => .error "TypeError: NoneType object is not subscriptable"
  else .error "AssertionError"

/-- Boolean indexing `x[valid_mask]`: keep the entries of `l` standing at the
positions where the mask is `True`. -/
def maskIndex {α : Type} (m : List Bool) (l : List α) : List α :=
  ((m.zip l).filter (fun p => p.1)).map (fun p => p.2)

/-- Model of `RayBundle.get_masked_ray_bundle`: boolean-index the required fields and
every present optional field; absent fields stay absent (`None` checks via
`is_not_none` in the source). -/
def RayBundle.get_masked_ray_bundle (b : RayBundle) (m : List Bool) : RayBundle :=
  { origins := maskIndex m b.origins
    directions := maskIndex m b.directions
    camera_indices := b.camera_indices.map (maskIndex m)
    nears := b.nears.map (maskIndex m)
    fars := b.fars.map (maskIndex m)
    valid_mask := b.valid_mask.map (maskIndex m) }

/-- Forward differences `ts[..., 1:] - ts[..., :-1]` for one ray. -/
def fwdDiffs (tr : List ℚ) : List ℚ := List.zipWith (fun a b => a - b) tr.tail tr

/-- The slice `l[-1:]`: the last element as a singleton list, empty when `l`
is empty. -/
def lastSlice {α : Type} (l : List α) : List α := l.drop (l.length - 1)

/-- Model of `RayBundle.get_ray_samples`, ray by ray.  Per ray `r`:
`positions = origins[r] + ts[r,s]*directions[r]`; `directions` broadcast over
the sample axis by `unsqueeze(1).repeat`; `valid_mask = ones_like(ts)`;
`dists = cat([ts[1:] - ts[:-1], dists[-1:]])` and
`deltas = dists * norm(directions[r])` with `torch.norm` abstracted as `nrm`;
`camera_indices`, when present, broadcast over the sample axis. -/
def RayBundle.get_ray_samples (nrm : Vec3 → ℚ) (b : RayBundle)
    (ts : List (List ℚ)) : RaySamples :=
  { positions := List.zipWith (fun od tr => tr.map (fun t => vadd od.1 (vsmul t od.2)))
      (b.origins.zip b.directions) ts
    directions := List.zipWith (fun d tr => tr.map (fun _ => d)) b.directions ts
    camera_indices := b.camera_indices.map
      (fun ci => List.zipWith (fun c tr => tr.map (fun _ => c)) ci ts)
    valid_mask := some (ts.map (fun tr => tr.map (fun _ => true)))
    ts := ts
    deltas := List.zipWith
      (fun d tr => (fwdDiffs tr ++ lastSlice (fwdDiffs tr)).map (fun x => x * nrm d))
      b.directions ts }

/-- Model of `tensor.view(h, w, ...)` on a flat list: row `i` holds the `w` entries
starting at offset `i*w` (row-major). -/
def viewRows {α : Type} (h w : ℕ) (l : List α) : List (List α) :=
  (List.range h).map (fun i => (l.drop (i * w)).take w)

/-- Model of `CameraRayBundle` from `rays.py`: a ray bundle shaped like an image grid,
with an optional per-pixel `camera_indices` grid and optional scalar
`camera_index`. -/
structure CameraRayBundle where
  origins : List (List Vec3)
  directions : List (List Vec3)
  camera_indices : Option (List (List ℤ)) := none
  camera_index : Option ℤ := none

/-- Model of `CameraRayBundle.set_camera_indices`: store the scalar and regenerate the
whole grid as `ones_like(origins[..., 0]).long() * camera_index`. -/
def CameraRayBundle.set_camera_indices (crb : CameraRayBundle) (c : ℤ) :
    CameraRayBundle :=
  { crb with
    camera_index := some c
    camera_indices := some (crb.origins.map (fun row => row.map (fun _ => c))) }

/-- The `CameraRayBundle` dataclass constructor together with `__post_init__`:
when a scalar `camera_index` is supplied, `set_camera_indices` is run at once,
deriving the full grid and overwriting any supplied `camera_indices`. -/
def CameraRayBundle.make (origins directions : List (List Vec3))
    (camera_indices : Option (List (List ℤ))) (camera_index : Option ℤ) :
    CameraRayBundle :=
  match camera_index with
  | some c => CameraRayBundle.set_camera_indices ⟨origins, directions, camera_indices, none⟩ c
  | none => ⟨origins, directions, camera_indices, none⟩

/-- Model of `CameraRayBundle.get_num_rays`: `image_height * image_width`. -/
def CameraRayBundle.get_num_rays (crb : CameraRayBundle) : ℕ :=
  crb.origins.length * (crb.origins.headD []).length

/-- Model of `CameraRayBundle.to_ray_bundle`: flatten origins and directions with
`view(-1, 3)`; every other field of the result is left at its `None`
default (the source has a TODO for `camera_index`). -/
def CameraRayBundle.to_ray_bundle (crb : CameraRayBundle) : RayBundle :=
  { origins := crb.origins.flatten
    directions := crb.directions.flatten }

/-- Model of `RayBundle.to_camera_ray_bundle`: reshape origins and directions with
`view(image_height, image_width, 3)`, and `camera_indices`, when present,
with `view(image_height, image_width)`. -/
def RayBundle.to_camera_ray_bundle (b : RayBundle)
    (image_height image_width : ℕ) : CameraRayBundle :=
  { origins := viewRows image_height image_width b.origins
    directions := viewRows image_height image_width b.directions
    camera_indices := b.camera_indices.map (viewRows image_height image_width)
    camera_index := none }

/-- Model of `CameraRayBundle.get_row_major_sliced_ray_bundle`: flatten row-major and
take the slice `[start_idx:end_idx]` of each present field. -/
def CameraRayBundle.get_row_major_sliced_ray_bundle (crb : CameraRayBundle)
    (start_idx end_idx : ℕ) : RayBundle :=
  { origins := (crb.origins.flatten.take end_idx).drop start_idx
    directions := (crb.directions.flatten.take end_idx).drop start_idx
    camera_indices := crb.camera_indices.map
      (fun ci => (ci.flatten.take end_idx).drop start_idx) }

lemma getD_of_le {α : Type} (l : List α) (i : ℕ) (d : α) (h : l.length ≤ i) :
    l.getD i d = d := by
  simp [List.getD_eq_getElem?_getD, List.getElem?_eq_none h]

lemma getD_tail {α : Type} (l : List α) (s : ℕ) (d : α) :
    l.tail.getD s d = l.getD (s + 1) d := by
  cases l <;> simp

lemma fwdDiffs_length (tr : List ℚ) : (fwdDiffs tr).length = tr.length - 1 := by
  simp [fwdDiffs, List.length_zipWith, List.length_tail]

lemma fwdDiffs_getD (tr : List ℚ) (s : ℕ) (h : s + 1 < tr.length) :
    (fwdDiffs tr).getD s 0 = tr.getD (s + 1) 0 - tr.getD s 0 := by
  rw [fwdDiffs, getD_zipWith_of_lt _ _ _ s 0 0 0
    (by simp [List.length_tail]; omega) (by omega), getD_tail]

lemma getD_drop {α : Type} (l : List α) (k i : ℕ) (d : α) :
    (l.drop k).getD i d = l.getD (k + i) d := by
  induction l generalizing k with
  | nil => simp
  | cons x xs ih =>
    cases k with
    | zero => simp
    | succ k0 => simp [Nat.succ_add, ih k0]

lemma lastSlice_getD {α : Type} (l : List α) (d : α) :
    (lastSlice l).getD 0 d = l.getD (l.length - 1) d := by
  rw [lastSlice, getD_drop, Nat.add_zero]

lemma getD_append_lt {α : Type} (l l' : List α) (s : ℕ) (d : α) (h : s < l.length) :
    (l ++ l').getD s d = l.getD s d := by
  induction l generalizing s with
  | nil => simp at h
  | cons x xs ih =>
    cases s with
    | zero => simp
    | succ s0 => simpa using ih s0 (by simpa using h)

lemma getD_append_ge {α : Type} (l l' : List α) (i : ℕ) (d : α) :
    (l ++ l').getD (l.length + i) d = l'.getD i d := by
  induction l with
  | nil => simp
  | cons x xs ih => simpa [Nat.succ_add] using ih

lemma dupLastDists_length (tr : List ℚ) (h : 2 ≤ tr.length) :
    (fwdDiffs tr ++ lastSlice (fwdDiffs tr)).length = tr.length := by
  simp [lastSlice, List.length_drop, fwdDiffs_length]
  omega

lemma dupLastDists_getD_mid (tr : List ℚ) (s : ℕ) (h : s + 1 < tr.length) :
    (fwdDiffs tr ++ lastSlice (fwdDiffs tr)).getD s 0 =
      tr.getD (s + 1) 0 - tr.getD s 0 := by
  rw [getD_append_lt _ _ _ _ (by rw [fwdDiffs_length]; omega), fwdDiffs_getD _ _ h]

lemma dupLastDists_getD_last (tr : List ℚ) (h : 2 ≤ tr.length) :
    (fwdDiffs tr ++ lastSlice (fwdDiffs tr)).getD (tr.length - 1) 0 =
      tr.getD (tr.length - 1) 0 - tr.getD (tr.length - 2) 0 := by
  have hl : tr.length - 1 = (fwdDiffs tr).length + 0 := by rw [fwdDiffs_length, Nat.add_zero]
  rw [hl, getD_append_ge, lastSlice_getD, fwdDiffs_length,
    fwdDiffs_getD tr (tr.length - 1 - 1) (by omega)]
  congr 2
  omega

/-- C2: `get_ray_samples` puts sample `s` of ray `r` at
`origins[r] + ts[r,s] * directions[r]`, broadcasts `directions[r]` over the
sample axis, and fills `valid_mask` with `True` in the shape of `ts`. -/
theorem get_ray_samples_positions (nrm : Vec3 → ℚ) (b : RayBundle)
    (ts : List (List ℚ)) (r s : ℕ)
    (hlen : b.directions.length = b.origins.length)
    (hts : ts.length = b.origins.length)
    (hr : r < b.origins.length)
    (hs : s < (ts.getD r []).length) :
    ((b.get_ray_samples nrm ts).positions.getD r []).getD s vzero =
      vadd (b.origins.getD r vzero)
        (vsmul ((ts.getD r []).getD s 0) (b.directions.getD r vzero)) ∧
    ((b.get_ray_samples nrm ts).directions.getD r []).getD s vzero =
      b.directions.getD r vzero ∧
    ∃ vm, (b.get_ray_samples nrm ts).valid_mask = some vm ∧
      vm.length = ts.length ∧
      (∀ r2, (vm.getD r2 []).length = (ts.getD r2 []).length) ∧
      (∀ r2 s2, s2 < (vm.getD r2 []).length → (vm.getD r2 []).getD s2 false = true) := by
  refine ⟨?_, ?_, ?_⟩
  · have hzlen : r < (b.origins.zip b.directions).length := by
      simp [List.length_zip, hlen]
      omega
    have hzip : (b.origins.zip b.directions).getD r (vzero, vzero) =
        (b.origins.getD r vzero, b.directions.getD r vzero) := by
      rw [List.getD_eq_getElem _ _ hzlen, List.getElem_zip,
        ← List.getD_eq_getElem b.origins vzero (by omega),
        ← List.getD_eq_getElem b.directions vzero (by omega)]
    rw [RayBundle.get_ray_samples]
    rw [getD_zipWith_of_lt _ _ _ r (vzero, vzero) [] [] hzlen (by omega), hzip]
    exact getD_map_of_lt _ _ s 0 vzero hs
  · rw [RayBundle.get_ray_samples]
    rw [getD_zipWith_of_lt _ _ _ r vzero [] [] (by omega) (by omega)]
    exact getD_map_of_lt _ _ s 0 vzero hs
  · refine ⟨_, rfl, by simp, ?_, ?_⟩
    · intro r2
      by_cases h2 : r2 < ts.length
      · rw [getD_map_of_lt _ _ r2 [] [] h2, List.length_map]
      · rw [getD_of_le _ _ _ (by simp; omega), getD_of_le _ _ _ (by omega)]
        rfl
    · intro r2 s2 hs2
      by_cases h2 : r2 < ts.length
      · rw [getD_map_of_lt _ _ r2 [] [] h2] at hs2 ⊢
        rw [List.length_map] at hs2
        exact getD_map_of_lt _ _ s2 0 false hs2
      · rw [getD_of_le _ _ _ (by simp; omega)] at hs2
        simp at hs2

/-- Concrete bundle for the C2 witness: one ray from the origin along the x
axis, with samples at `ts = [0, 1, 2]` (the example in the specification). -/
def bundleW2 : RayBundle := { origins := [(0, 0, 0)], directions := [(1, 0, 0)] }

/-- Witness for C2 at ray 0, sample 2 of `ts = [[0, 1, 2]]`. -/
theorem get_ray_samples_positions_witness :
    ((bundleW2.get_ray_samples (fun v => v.1) [[0, 1, 2]]).positions.getD 0 []).getD 2 vzero =
      vadd (bundleW2.origins.getD 0 vzero)
        (vsmul ((([[0, 1, 2]] : List (List ℚ)).getD 0 []).getD 2 0)
          (bundleW2.directions.getD 0 vzero)) ∧
    ((bundleW2.get_ray_samples (fun v => v.1) [[0, 1, 2]]).directions.getD 0 []).getD 2 vzero =
      bundleW2.directions.getD 0 vzero ∧
    ∃ vm, (bundleW2.get_ray_samples (fun v => v.1) [[0, 1, 2]]).valid_mask = some vm ∧
      vm.length = ([[0, 1, 2]] : List (List ℚ)).length ∧
      (∀ r2, (vm.getD r2 []).length = (([[0, 1, 2]] : List (List ℚ)).getD r2 []).length) ∧
      (∀ r2 s2, s2 < (vm.getD r2 []).length → (vm.getD r2 []).getD s2 false = true) :=
  get_ray_samples_positions (fun v => v.1) bundleW2 [[0, 1, 2]] 0 2
    (by decide) (by decide) (by decide) (by decide)

/-- C3: for at least two samples on ray `r`, `get_ray_samples` produces one
delta per sample; before the last sample
`deltas[r,s] = (ts[r,s+1] - ts[r,s]) * norm(directions[r])`, and the last
delta duplicates the width of the second-to-last interval,
`(ts[r,last] - ts[r,last-1]) * norm(directions[r])`. -/
theorem get_ray_samples_deltas (nrm : Vec3 → ℚ) (b : RayBundle)
    (ts : List (List ℚ)) (r : ℕ)
    (hts : ts.length = b.directions.length)
    (hr : r < b.directions.length)
    (hn : 2 ≤ (ts.getD r []).length) :
    ((b.get_ray_samples nrm ts).deltas.getD r []).length = (ts.getD r []).length ∧
    (∀ s, s + 1 < (ts.getD r []).length →
      ((b.get_ray_samples nrm ts).deltas.getD r []).getD s 0 =
        ((ts.getD r []).getD (s + 1) 0 - (ts.getD r []).getD s 0) *
          nrm (b.directions.getD r vzero)) ∧
    ((b.get_ray_samples nrm ts).deltas.getD r []).getD ((ts.getD r []).length - 1) 0 =
      ((ts.getD r []).getD ((ts.getD r []).length - 1) 0 -
        (ts.getD r []).getD ((ts.getD r []).length - 2) 0) *
          nrm (b.directions.getD r vzero) := by
  have hrow : (b.get_ray_samples nrm ts).deltas.getD r [] =
      (fwdDiffs (ts.getD r []) ++ lastSlice (fwdDiffs (ts.getD r []))).map
        (fun x => x * nrm (b.directions.getD r vzero)) := by
    rw [RayBundle.get_ray_samples]
    exact getD_zipWith_of_lt _ _ _ r vzero [] [] hr (by omega)
  refine ⟨?_, ?_, ?_⟩
  · rw [hrow, List.length_map, dupLastDists_length _ hn]
  · intro s hs
    rw [hrow, getD_map_of_lt _ _ s 0 0 (by rw [dupLastDists_length _ hn]; omega),
      dupLastDists_getD_mid _ _ hs]
  · rw [hrow, getD_map_of_lt _ _ _ 0 0 (by rw [dupLastDists_length _ hn]; omega),
      dupLastDists_getD_last _ hn]

/-- Concrete bundle for the C3 witness, matching the specification example. -/
def bundleW3 : RayBundle := { origins := [(0, 0, 0)], directions := [(1, 0, 0)] }

/-- Witness for C3 on `ts = [[0, 1, 2]]`. -/
theorem get_ray_samples_deltas_witness :
    ((bundleW3.get_ray_samples (fun v => v.1) [[0, 1, 2]]).deltas.getD 0 []).length =
      (([[0, 1, 2]] : List (List ℚ)).getD 0 []).length ∧
    (∀ s, s + 1 < (([[0, 1, 2]] : List (List ℚ)).getD 0 []).length →
      ((bundleW3.get_ray_samples (fun v => v.1) [[0, 1, 2]]).deltas.getD 0 []).getD s 0 =
        ((([[0, 1, 2]] : List (List ℚ)).getD 0 []).getD (s + 1) 0 -
          (([[0, 1, 2]] : List (List ℚ)).getD 0 []).getD s 0) *
            (fun v => v.1) (bundleW3.directions.getD 0 vzero)) ∧
    ((bundleW3.get_ray_samples (fun v => v.1) [[0, 1, 2]]).deltas.getD 0 []).getD
        ((([[0, 1, 2]] : List (List ℚ)).getD 0 []).length - 1) 0 =
      ((([[0, 1, 2]] : List (List ℚ)).getD 0 []).getD
          ((([[0, 1, 2]] : List (List ℚ)).getD 0 []).length - 1) 0 -
        (([[0, 1, 2]] : List (List ℚ)).getD 0 []).getD
          ((([[0, 1, 2]] : List (List ℚ)).getD 0 []).length - 2) 0) *
          (fun v => v.1) (bundleW3.directions.getD 0 vzero) :=
  get_ray_samples_deltas (fun v => v.1) bundleW3 [[0, 1, 2]] 0
    (by decide) (by decide) (by decide)

/-- Counterexample to C4 as stated: a one-ray bundle without `camera_indices`
and the valid draw `[0]` of `k = 1 ≤ N = 1` indices, on which `sample` raises
(the subscript `self.camera_indices[indices]` hits `None`) instead of
returning a bundle. -/
theorem sample_no_camera_cex :
    RayBundle.sample { origins := [(0, 0, 0)], directions := [(1, 0, 0)] } 1 [0] =
      Except.error "TypeError: NoneType object is not subscriptable" ∧
    ¬∃ rb, RayBundle.sample { origins := [(0, 0, 0)], directions := [(1, 0, 0)] } 1 [0] =
      Except.ok rb := by
  constructor
  · rfl
  · rintro ⟨rb, hrb⟩
    rw [show RayBundle.sample { origins := [(0, 0, 0)], directions := [(1, 0, 0)] } 1 [0] =
      Except.error "TypeError: NoneType object is not subscriptable" from rfl] at hrb
    exact Except.noConfusion hrb

/-- C4 (amended with the precondition that `camera_indices` is present): for
every such `RayBundle` and `k ≤ N`, a draw of `k` pairwise-distinct in-range
indices makes `sample` return a bundle of exactly `k` rows whose origins and
directions at row `j` are the original arrays at the `j`-th drawn index. -/
theorem sample_rows (b : RayBundle) (k : ℕ) (indices : List ℕ) (ci : List ℤ)
    (hci : b.camera_indices = some ci)
    (hk : k ≤ b.len)
    (hlen : indices.length = k)
    (hnd : indices.Nodup)
    (hmem : ∀ i ∈ indices, i < b.len) :
    ∃ rb, ∃ idxs : List ℕ, b.sample k indices = Except.ok rb ∧
      idxs.Nodup ∧ idxs.length = k ∧ (∀ i ∈ idxs, i < b.len) ∧
      rb.origins.length = k ∧ rb.directions.length = k ∧
      (∀ j, j < k →
        rb.origins.getD j vzero = b.origins.getD (idxs.getD j 0) vzero ∧
        rb.directions.getD j vzero = b.directions.getD (idxs.getD j 0) vzero) := by
  have hsamp : b.sample k indices = Except.ok
      { origins := indices.map (fun i => b.origins.getD i vzero)
        directions := indices.map (fun i => b.directions.getD i vzero)
        camera_indices := some (indices.map (fun i => ci.getD i 0)) } := by
    rw [RayBundle.sample, if_pos hk, hci]
  refine ⟨_, indices, hsamp, hnd, hlen, hmem, by simp [hlen], by simp [hlen], ?_⟩
  intro j hj
  constructor
  · exact getD_map_of_lt _ _ j 0 vzero (by omega)
  · exact getD_map_of_lt _ _ j 0 vzero (by omega)

/-- Concrete two-ray bundle with camera indices for the C4 witness. -/
def bundleW4 : RayBundle :=
  { origins := [(0, 0, 0), (5, 5, 5)], directions := [(1, 0, 0), (0, 1, 0)]
    camera_indices := some [7, 9] }

/-- Witness for the amended C4: drawing index 1 out of two rays. -/
theorem sample_rows_witness :
    ∃ rb, ∃ idxs : List ℕ, bundleW4.sample 1 [1] = Except.ok rb ∧
      idxs.Nodup ∧ idxs.length = 1 ∧ (∀ i ∈ idxs, i < bundleW4.len) ∧
      rb.origins.length = 1 ∧ rb.directions.length = 1 ∧
      (∀ j, j < 1 →
        rb.origins.getD j vzero = bundleW4.origins.getD (idxs.getD j 0) vzero ∧
        rb.directions.getD j vzero = bundleW4.directions.getD (idxs.getD j 0) vzero) :=
  sample_rows bundleW4 1 [1] [7, 9] (by decide) (by decide) (by decide)
    (by decide) (by decide)

/-- C8: `sample` with more rays requested than available fails the
`assert num_rays <= len(self)` precondition check (an `AssertionError`); it
never truncates or wraps, whatever index draw would follow. -/
theorem sample_too_many (b : RayBundle) (k : ℕ) (indices : List ℕ)
    (hk : b.len < k) :
    b.sample k indices = Except.error "AssertionError" := by
  rw [RayBundle.sample, if_neg (by omega)]

/-- Witness for C8: requesting 2 rays from a one-ray bundle. -/
theorem sample_too_many_witness :
    RayBundle.sample
      { origins := [(1, 2, 3)], directions := [(0, 0, 1)]
        camera_indices := some [4] } 2 [0, 0] =
      Except.error "AssertionError" :=
  sample_too_many _ 2 [0, 0] (by decide)

/-- C10: when `camera_indices` is absent, `sample` with any admissible `k`
fails (the source subscripts `self.camera_indices`, which is `None`) instead
of returning a bundle. -/
theorem sample_missing_camera_indices (b : RayBundle) (k : ℕ) (indices : List ℕ)
    (hci : b.camera_indices = none) (hk : k ≤ b.len) :
    b.sample k indices = Except.error "TypeError: NoneType object is not subscriptable" := by
  rw [RayBundle.sample, if_pos hk, hci]

/-- Witness for C10: a two-ray bundle without camera indices, sampling one ray. -/
theorem sample_missing_camera_indices_witness :
    RayBundle.sample
      { origins := [(1, 0, 0), (2, 0, 0)], directions := [(0, 1, 0), (0, 0, 1)] }
      1 [0] =
      Except.error "TypeError: NoneType object is not subscriptable" :=
  sample_missing_camera_indices _ 1 [0] (by decide) (by decide)

/-- The indices at which a boolean mask is `True`, in increasing order: the
specification's "rows where M is true". -/
def trueIndices : List Bool → List ℕ
  | [] => []
  | x :: m => if x then 0 :: (trueIndices m).map (fun i => i + 1)
              else (trueIndices m).map (fun i => i + 1)

/-- Restriction of an array to the rows where the mask is `True`, written from
the specification words rather than from the code: read the entries standing
at `trueIndices`. -/
def restrictRows {α : Type} (m : List Bool) (l : List α) (d : α) : List α :=
  (trueIndices m).map (fun i => l.getD i d)

lemma maskIndex_cons {α : Type} (x : Bool) (m : List Bool) (a : α) (l : List α) :
    maskIndex (x :: m) (a :: l) = if x then a :: maskIndex m l else maskIndex m l := by
  cases x <;> simp [maskIndex]

lemma restrictRows_cons {α : Type} (x : Bool) (m : List Bool) (a : α)
    (l : List α) (d : α) :
    restrictRows (x :: m) (a :: l) d =
      if x then a :: restrictRows m l d else restrictRows m l d := by
  cases x <;>
    simp [restrictRows, trueIndices, List.map_map, Function.comp,
      List.getD_cons_succ]

lemma maskIndex_eq_restrictRows {α : Type} (m : List Bool) (l : List α) (d : α)
    (h : m.length = l.length) : maskIndex m l = restrictRows m l d := by
  induction m generalizing l with
  | nil =>
    cases l with
    | nil => rfl
    | cons a l2 => simp at h
  | cons x m ih =>
    cases l with
    | nil => simp at h
    | cons a l2 =>
      have h2 : m.length = l2.length := by simpa using h
      rw [maskIndex_cons, restrictRows_cons, ih l2 h2]

/-- C5: `get_masked_ray_bundle` restricts every present field to the rows
where the mask is true (origins and directions unconditionally, each optional
field when present and of matching length), and keeps absent optional fields
absent. -/
theorem get_masked_ray_bundle_fields (b : RayBundle) (m : List Bool)
    (hm : m.length = b.origins.length)
    (hd : m.length = b.directions.length) :
    (b.get_masked_ray_bundle m).origins = restrictRows m b.origins vzero ∧
    (b.get_masked_ray_bundle m).directions = restrictRows m b.directions vzero ∧
    (b.camera_indices = none → (b.get_masked_ray_bundle m).camera_indices = none) ∧
    (∀ v, b.camera_indices = some v → m.length = v.length →
      (b.get_masked_ray_bundle m).camera_indices = some (restrictRows m v 0)) ∧
    (b.nears = none → (b.get_masked_ray_bundle m).nears = none) ∧
    (∀ v, b.nears = some v → m.length = v.length →
      (b.get_masked_ray_bundle m).nears = some (restrictRows m v 0)) ∧
    (b.fars = none → (b.get_masked_ray_bundle m).fars = none) ∧
    (∀ v, b.fars = some v → m.length = v.length →
      (b.get_masked_ray_bundle m).fars = some (restrictRows m v 0)) ∧
    (b.valid_mask = none → (b.get_masked_ray_bundle m).valid_mask = none) ∧
    (∀ v, b.valid_mask = some v → m.length = v.length →
      (b.get_masked_ray_bundle m).valid_mask = some (restrictRows m v false)) := by
  refine ⟨maskIndex_eq_restrictRows _ _ _ hm, maskIndex_eq_restrictRows _ _ _ hd,
    ?_, ?_, ?_, ?_, ?_, ?_, ?_, ?_⟩
  · intro h
    simp [RayBundle.get_masked_ray_bundle, h]
  · intro v hv hlen
    simp [RayBundle.get_masked_ray_bundle, hv, maskIndex_eq_restrictRows m v 0 hlen]
  · intro h
    simp [RayBundle.get_masked_ray_bundle, h]
  · intro v hv hlen
    simp [RayBundle.get_masked_ray_bundle, hv, maskIndex_eq_restrictRows m v 0 hlen]
  · intro h
    simp [RayBundle.get_masked_ray_bundle, h]
  · intro v hv hlen
    simp [RayBundle.get_masked_ray_bundle, hv, maskIndex_eq_restrictRows m v 0 hlen]
  · intro h
    simp [RayBundle.get_masked_ray_bundle, h]
  · intro v hv hlen
    simp [RayBundle.get_masked_ray_bundle, hv,
      maskIndex_eq_restrictRows m v false hlen]

/-- Concrete fully-populated bundle for the C5 witness. -/
def bundleW5 : RayBundle :=
  { origins := [(1, 1, 1), (2, 2, 2)], directions := [(0, 1, 0), (0, 0, 1)]
    camera_indices := some [3, 4], nears := some [1, 5], fars := some [10, 20]
    valid_mask := some [true, false] }

/-- Witness for C5 with the mask `[true, false]`. -/
theorem get_masked_ray_bundle_fields_witness :
    (bundleW5.get_masked_ray_bundle [true, false]).origins =
      restrictRows [true, false] bundleW5.origins vzero ∧
    (bundleW5.get_masked_ray_bundle [true, false]).directions =
      restrictRows [true, false] bundleW5.directions vzero ∧
    (bundleW5.camera_indices = none →
      (bundleW5.get_masked_ray_bundle [true, false]).camera_indices = none) ∧
    (∀ v, bundleW5.camera_indices = some v → ([true, false] : List Bool).length = v.length →
      (bundleW5.get_masked_ray_bundle [true, false]).camera_indices =
        some (restrictRows [true, false] v 0)) ∧
    (bundleW5.nears = none →
      (bundleW5.get_masked_ray_bundle [true, false]).nears = none) ∧
    (∀ v, bundleW5.nears = some v → ([true, false] : List Bool).length = v.length →
      (bundleW5.get_masked_ray_bundle [true, false]).nears =
        some (restrictRows [true, false] v 0)) ∧
    (bundleW5.fars = none →
      (bundleW5.get_masked_ray_bundle [true, false]).fars = none) ∧
    (∀ v, bundleW5.fars = some v → ([true, false] : List Bool).length = v.length →
      (bundleW5.get_masked_ray_bundle [true, false]).fars =
        some (restrictRows [true, false] v 0)) ∧
    (bundleW5.valid_mask = none →
      (bundleW5.get_masked_ray_bundle [true, false]).valid_mask = none) ∧
    (∀ v, bundleW5.valid_mask = some v → ([true, false] : List Bool).length = v.length →
      (bundleW5.get_masked_ray_bundle [true, false]).valid_mask =
        some (restrictRows [true, false] v false)) :=
  get_masked_ray_bundle_fields bundleW5 [true, false] (by decide) (by decide)

/-- C9: `to_ray_bundle` populates only origins and directions (flattened
row-major to `num_rays × 3`): `camera_indices` is dropped even when the
camera bundle carries a grid, and `nears`, `fars`, `valid_mask` are absent. -/
theorem to_ray_bundle_fields (crb : CameraRayBundle) :
    crb.to_ray_bundle.origins = crb.origins.flatten ∧
    crb.to_ray_bundle.directions = crb.directions.flatten ∧
    crb.to_ray_bundle.camera_indices = none ∧
    crb.to_ray_bundle.nears = none ∧
    crb.to_ray_bundle.fars = none ∧
    crb.to_ray_bundle.valid_mask = none :=
  ⟨rfl, rfl, rfl, rfl, rfl, rfl⟩

lemma drop_append_ge {α : Type} (l l' : List α) (i : ℕ) :
    (l ++ l').drop (l.length + i) = l'.drop i := by
  induction l with
  | nil => simp
  | cons x xs ih => simp [Nat.succ_add, ih]

lemma viewRows_flatten {α : Type} (g : List (List α)) (w : ℕ)
    (hw : ∀ row ∈ g, row.length = w) :
    viewRows g.length w g.flatten = g := by
  induction g with
  | nil => simp [viewRows]
  | cons r g ih =>
    have hr : r.length = w := hw r (by simp)
    have hg : ∀ row ∈ g, row.length = w := fun row hrow => hw row (by simp [hrow])
    rw [List.length_cons, viewRows, List.range_succ_eq_map]
    simp only [List.map_cons, List.map_map]
    congr 1
    · rw [List.flatten_cons, Nat.zero_mul, List.drop_zero, ← hr, List.take_left]
    · show List.map ((fun i => (((r :: g).flatten).drop (i * w)).take w) ∘ Nat.succ)
          (List.range g.length) = g
      refine (List.map_congr_left ?_).trans (ih hg)
      intro i hi
      simp only [Function.comp_apply]
      have harith : Nat.succ i * w = r.length + i * w := by
        rw [hr, Nat.succ_mul, Nat.add_comm]
      rw [List.flatten_cons, harith, drop_append_ge]

/-- C6: flattening a `CameraRayBundle` with `to_ray_bundle` and reshaping back
with `to_camera_ray_bundle(h, w)` reproduces the original `h × w` origin and
direction grids exactly. -/
theorem camera_round_trip (crb : CameraRayBundle) (h w : ℕ)
    (ho : crb.origins.length = h)
    (hor : ∀ row ∈ crb.origins, row.length = w)
    (hd : crb.directions.length = h)
    (hdr : ∀ row ∈ crb.directions, row.length = w) :
    (crb.to_ray_bundle.to_camera_ray_bundle h w).origins = crb.origins ∧
    (crb.to_ray_bundle.to_camera_ray_bundle h w).directions = crb.directions := by
  constructor
  · show viewRows h w crb.origins.flatten = crb.origins
    rw [← ho]
    exact viewRows_flatten crb.origins w hor
  · show viewRows h w crb.directions.flatten = crb.directions
    rw [← hd]
    exact viewRows_flatten crb.directions w hdr

/-- Concrete 2 × 1 camera bundle for the C6 witness. -/
def camBundleW6 : CameraRayBundle :=
  { origins := [[(1, 2, 3)], [(4, 5, 6)]]
    directions := [[(0, 0, 1)], [(0, 1, 0)]]
    camera_indices := some [[2], [2]] }

/-- Witness for C6 on a 2 × 1 grid. -/
theorem camera_round_trip_witness :
    (camBundleW6.to_ray_bundle.to_camera_ray_bundle 2 1).origins = camBundleW6.origins ∧
    (camBundleW6.to_ray_bundle.to_camera_ray_bundle 2 1).directions = camBundleW6.directions :=
  camera_round_trip camBundleW6 2 1 (by decide) (by decide) (by decide) (by decide)

lemma constGrid_row_length (o : List (List Vec3)) (c : ℤ) (r : ℕ) :
    ((o.map (fun row => row.map (fun _ => c))).getD r []).length =
      (o.getD r []).length := by
  by_cases h2 : r < o.length
  · rw [getD_map_of_lt _ _ r [] [] h2, List.length_map]
  · rw [getD_of_le _ _ _ (by simp; omega), getD_of_le _ _ _ (by omega)]
    rfl

lemma constGrid_entry (o : List (List Vec3)) (c : ℤ) (r s : ℕ)
    (hs : s < ((o.map (fun row => row.map (fun _ => c))).getD r []).length) :
    ((o.map (fun row => row.map (fun _ => c))).getD r []).getD s 0 = c := by
  by_cases h2 : r < o.length
  · rw [getD_map_of_lt _ _ r [] [] h2] at hs ⊢
    rw [List.length_map] at hs
    exact getD_map_of_lt _ _ s vzero 0 hs
  · rw [getD_of_le _ _ _ (by simp; omega)] at hs
    simp at hs

/-- C7: `set_camera_indices c` stores the scalar `c` and regenerates
`camera_indices` as a grid of the shape of `origins` with every entry `c`;
the constructor path (`__post_init__` with a `camera_index` argument, modelled
by `CameraRayBundle.make`) establishes exactly the same synchronisation. -/
theorem set_camera_indices_sync (crb : CameraRayBundle) (c : ℤ) :
    (crb.set_camera_indices c).camera_index = some c ∧
    (∃ g, (crb.set_camera_indices c).camera_indices = some g ∧
      g.length = crb.origins.length ∧
      (∀ r, (g.getD r []).length = (crb.origins.getD r []).length) ∧
      (∀ r s, s < (g.getD r []).length → (g.getD r []).getD s 0 = c)) ∧
    (CameraRayBundle.make crb.origins crb.directions crb.camera_indices
      (some c)).camera_index = some c ∧
    (∃ g, (CameraRayBundle.make crb.origins crb.directions crb.camera_indices
        (some c)).camera_indices = some g ∧
      g.length = crb.origins.length ∧
      (∀ r, (g.getD r []).length = (crb.origins.getD r []).length) ∧
      (∀ r s, s < (g.getD r []).length → (g.getD r []).getD s 0 = c)) := by
  refine ⟨rfl, ⟨_, rfl, by simp, fun r => constGrid_row_length crb.origins c r,
      fun r s hs => constGrid_entry crb.origins c r s hs⟩,
    rfl, ⟨_, rfl, by simp, fun r => constGrid_row_length crb.origins c r,
      fun r s hs => constGrid_entry crb.origins c r s hs⟩⟩
